import Mathlib

set_option maxRecDepth 8000

/-!
Verification development for the real-time sketch-and-guess game front-end.

The repository is a React front-end whose game logic lives in a handful of
client-side functions (`submitGuess`, `handleRoundEnd`, `startGame`,
`getRandomWord`, the drawing-canvas mouse handlers) that issue CRUD calls to a
hosted database.  This file shallowly embeds those functions: JavaScript
strings become Lean `String`s with explicitly defined JS-semantics helpers
(`jsTrim`, `jsLower`, ...), database rows become structures, database writes
become explicit state passing or an effect trace (`DbOp`), and the outcome of
`Math.random()` becomes an explicit index argument.
-/

/-- JS `String.prototype.trim` whitespace test, restricted to the ASCII
whitespace characters that can occur in this code base's strings. -/
def jsWhitespace (c : Char) : Bool :=
  c == ' ' || c == '\t' || c == '\n' || c == '\r'

/-- Embedding of JS `String.prototype.toLowerCase`.  The repository's word
lists and guesses are ASCII, where JS `toLowerCase` agrees with a
character-wise ASCII lower-casing. -/
def jsLower (s : String) : String :=
  ⟨s.data.map Char.toLower⟩

/-- Embedding of JS `String.prototype.trim`: drop whitespace from both ends. -/
def jsTrim (s : String) : String :=
  ⟨((s.data.dropWhile jsWhitespace).reverse.dropWhile jsWhitespace).reverse⟩

/-- Embedding of JS `String.prototype.repeat`. -/
def jsRepeat (s : String) : Nat → String
  | 0 => ""
  | n + 1 => s ++ jsRepeat s n

/-- Embedding of JS `Array.prototype.findIndex`: index of the first element
satisfying the predicate, `-1` if there is none. -/
def jsFindIndex {α : Type} (p : α → Bool) : List α → Int
  | [] => -1
  | a :: as =>
    if p a then 0
    else
      let r := jsFindIndex p as
      if r = -1 then -1 else r + 1

/-- A row of the `players` table (fields used by the game logic). -/
structure Player where
  id : String
  name : String
  score : Nat
  is_host : Bool
  is_online : Bool
deriving DecidableEq

/-- A row of the `game_rooms` table. -/
structure GameRoom where
  id : String
  name : String
  host_id : String
  current_player_id : Option String
  current_word : Option String
  round_number : Nat
  max_rounds : Nat
  time_per_round : Nat
  is_active : Bool
deriving DecidableEq

/-- A row inserted into the `guesses` table by `submitGuess`. -/
structure GuessRecord where
  room_id : String
  player_id : String
  guess : String
  is_correct : Bool
deriving DecidableEq

/-- The database state touched by a guess submission: the room's players and
the append-only guess log. -/
structure ChatState where
  players : List Player
  guesses : List GuessRecord
deriving DecidableEq

/-- One point of a stroke batch (`DrawPoint` / `Point` in the source). -/
structure Point where
  x : Int
  y : Int
  color : String
  size : Nat
  isNewStroke : Bool
deriving DecidableEq

/-- A database write issued by `handleRoundEnd`, in issue order. -/
inductive DbOp where
  | updateRoom (r : GameRoom)
  | deleteStrokes
deriving DecidableEq

/-- The word list of `src/src/data/gameWords.ts`, verbatim. -/
def GAME_WORDS : List String := [
  "Cat", "Dog", "Fish", "Bird", "Mouse", "Bear", "Lion", "Tiger", "Elephant", "Rabbit",
  "Horse", "Cow", "Pig", "Sheep", "Duck", "Chicken", "Frog", "Butterfly", "Bee", "Spider",
  "House", "Car", "Bike", "Book", "Phone", "Clock", "Chair", "Table", "Bed", "Door",
  "Window", "Key", "Ball", "Hat", "Shoe", "Cup", "Plate", "Spoon", "Knife", "Fork",
  "Apple", "Banana", "Orange", "Grape", "Pizza", "Cake", "Bread", "Cheese", "Egg", "Fish",
  "Chicken", "Ice Cream", "Cookie", "Candy", "Chocolate", "Hamburger", "Hot Dog", "Sandwich", "Donut", "Pie",
  "Tree", "Flower", "Sun", "Moon", "Star", "Cloud", "Rain", "Snow", "Mountain", "River",
  "Beach", "Ocean", "Fire", "Rainbow", "Lightning", "Wind", "Earth", "Rock", "Grass", "Leaf",
  "Eye", "Nose", "Mouth", "Ear", "Hand", "Foot", "Head", "Hair", "Tooth", "Face",
  "Plane", "Train", "Bus", "Truck", "Boat", "Ship", "Bicycle", "Motorcycle", "Helicopter", "Rocket",
  "Soccer", "Basketball", "Tennis", "Swimming", "Running", "Dancing", "Singing", "Reading", "Writing", "Drawing",
  "Happy", "Sad", "Angry", "Surprised", "Sleeping", "Jumping", "Walking", "Flying", "Swimming", "Eating",
  "Circle", "Square", "Triangle", "Heart", "Diamond", "Red", "Blue", "Green", "Yellow", "Purple",
  "Guitar", "Piano", "Dinosaur", "Castle", "Princess", "Knight", "Dragon", "Treasure", "Pirate", "Robot",
  "Computer", "Television", "Camera", "Telephone", "Airplane", "Submarine", "Telescope", "Microscope", "Calculator", "Refrigerator"]

/-- Embedding of `getRandomWord` of `src/src/data/gameWords.ts`:
`GAME_WORDS[Math.floor(Math.random() * GAME_WORDS.length)]`.  The outcome of
`Math.floor(Math.random() * N)`, always in `[0, N)`, is made an explicit
argument. -/
def getRandomWord (randomIndex : Fin GAME_WORDS.length) : String :=
  GAME_WORDS.get randomIndex

/-- Correctness test of `submitGuess` in `GameBoard.tsx` (line 1129):
`currentGuess.toLowerCase().trim() === room?.current_word?.toLowerCase()`.
A null `current_word` makes the right-hand side `undefined`, so the strict
equality is false. -/
def gameBoardIsCorrect (currentGuess : String) (current_word : Option String) : Bool :=
  match current_word with
  | some w => jsTrim (jsLower currentGuess) == jsLower w
  | none => false

/-- Correctness test of `submitGuess` in `ChatPanel.tsx` (lines 104-105):
`currentWord && newGuess.toLowerCase().trim() === currentWord.toLowerCase().trim()`. -/
def chatIsCorrect (newGuess : String) (currentWord : Option String) : Bool :=
  match currentWord with
  | some w => jsTrim (jsLower newGuess) == jsTrim (jsLower w)
  | none => false

/-- The spec's normalized comparison, written from the spec's words
("equality after lower-casing both and trimming surrounding whitespace from
both"), for comparison against the two implementations above. -/
def specNormalizedEq (guess word : String) : Bool :=
  jsTrim (jsLower guess) == jsTrim (jsLower word)

/-- Embedding of the score write of `submitGuess` (`ChatPanel.tsx` lines
121-126): `update({ score: sql score + 10 }).eq('id', playerId)` adds 10 to
the score of every `players` row whose id matches. -/
def awardTen (players : List Player) (playerId : String) : List Player :=
  players.map fun p => if p.id == playerId then { p with score := p.score + 10 } else p

/-- Score of the player row with the given id, `none` if absent. -/
def scoreOf (players : List Player) (playerId : String) : Option Nat :=
  (players.find? fun p => p.id == playerId).map Player.score

/-- Embedding of `submitGuess` of `ChatPanel.tsx` (lines 95-140).  Arguments
mirror the component props (`roomId`, `playerId`, `currentWord`, `isDrawing`);
`isSubmitting` is false because submissions are serialized here.  The guard
`!newGuess.trim() || isDrawing` rejects without touching the state; otherwise
a guess row is inserted with `is_correct` as computed, and a correct guess
additionally adds 10 to the submitter's score.  No room-state check occurs. -/
def submitGuess (roomId playerId : String) (currentWord : Option String)
    (isDrawing : Bool) (newGuess : String) (st : ChatState) : ChatState :=
  if jsTrim newGuess = "" ∨ isDrawing then st
  else
    let isCorrect := chatIsCorrect newGuess currentWord
    let st' : ChatState :=
      { st with guesses := st.guesses ++ [⟨roomId, playerId, jsTrim newGuess, isCorrect⟩] }
    if isCorrect then { st' with players := awardTen st'.players playerId } else st'

/-- The guess-submission pipeline as wired in `GameBoard.tsx` (variant at
lines 245-252) and `ChatPanel.tsx`: the panel receives
`currentWord = room.current_word` and `isDrawing = (room.current_player_id
=== playerId)`; the room's activity flag is not passed and not consulted. -/
def submitGuessFull (room : GameRoom) (playerId : String) (newGuess : String)
    (st : ChatState) : ChatState :=
  submitGuess room.id playerId room.current_word
    (room.current_player_id == some playerId) newGuess st

/-- Embedding of the player fetch of `fetchGameData` (`GameBoard.tsx` lines
1055-1059): `.order('score', { ascending: false })` returns the room's player
rows sorted by score, descending. -/
def fetchPlayers (rows : List Player) : List Player :=
  List.insertionSort (fun p q => q.score ≤ p.score) rows

instance : IsTotal Player (fun p q => q.score ≤ p.score) :=
  ⟨fun a b => le_total b.score a.score⟩

instance : IsTrans Player (fun p q => q.score ≤ p.score) :=
  ⟨fun _ _ _ hab hbc => le_trans hbc hab⟩

/-- Next-drawer computation of `handleRoundEnd` (`GameBoard.tsx` lines
1164-1166): `(players.findIndex(p => p.id === room.current_player_id) + 1) %
players.length`, then indexing into `players`.  An empty list yields
`undefined` in JS (`0 % 0` is `NaN`), embedded as `none`. -/
def nextDrawer (room : GameRoom) (players : List Player) : Option Player :=
  let idx : Int := jsFindIndex (fun p => some p.id == room.current_player_id) players
  if players.length = 0 then none
  else players.get? ((idx + 1) % (players.length : Int)).toNat

/-- Modelled from the spec: "rotate through the room's player list in stable
join order, wrapping around" — the player immediately after the current
drawer in creation order.  Used only to compare the code's next-drawer choice
against the spec's words. -/
def joinOrderSuccessor (joinOrdered : List Player) (currentId : Option String) : Option Player :=
  let idx : Int := jsFindIndex (fun p => some p.id == currentId) joinOrdered
  if joinOrdered.length = 0 then none
  else joinOrdered.get? ((idx + 1) % (joinOrdered.length : Int)).toNat

/-- Result of one `handleRoundEnd` call: the room row after the call and the
database writes it issued, in issue order. -/
structure RoundEndResult where
  room : GameRoom
  ops : List DbOp
deriving DecidableEq

/-- Embedding of `handleRoundEnd` of `GameBoard.tsx` (lines 1161-1197).
`players` is the component's fetched player list and `newWord` the value
returned by `getRandomWord()`.  When `round_number + 1 <= max_rounds` it
updates the room to the next round (new drawer and word) and then deletes the
room's strokes; otherwise it only sets `is_active` to false. -/
def handleRoundEnd (room : GameRoom) (players : List Player) (newWord : String) :
    RoundEndResult :=
  let nextRound := room.round_number + 1
  let nextPlayer := nextDrawer room players
  if nextRound ≤ room.max_rounds then
    let room' : GameRoom :=
      { room with
        round_number := nextRound
        current_player_id := nextPlayer.map Player.id
        current_word := some newWord }
    ⟨room', [DbOp.updateRoom room', DbOp.deleteStrokes]⟩
  else
    let room' : GameRoom := { room with is_active := false }
    ⟨room', [DbOp.updateRoom room']⟩

/-- Room rows reachable from `r` by repeatedly applying the round-end
transition, with arbitrary fetched player lists and word draws. -/
inductive RoomReachable : GameRoom → GameRoom → Prop
  | refl (r : GameRoom) : RoomReachable r r
  | step (r r' : GameRoom) (players : List Player) (newWord : String) :
      RoomReachable r r' → RoomReachable r (handleRoundEnd r' players newWord).room

/-- The room row created by `createRoom` (`GameLobby.tsx` lines 171-180):
`max_rounds: 5, time_per_round: 60, round_number: 1, is_active: true`. -/
def createdRoom (roomId roomName hostId : String) : GameRoom :=
  ⟨roomId, roomName, hostId, none, none, 1, 5, 60, true⟩

/-- Result of `startGame` of `GameLobby.tsx`: either a rejection (the
function returns before issuing any database write, leaving the room row
unchanged) or the room update it issues. -/
inductive StartGameResult where
  | notHost
  | notEnoughPlayers
  | started (room : GameRoom)
deriving DecidableEq

/-- True exactly on the success constructor. -/
def StartGameResult.isStarted : StartGameResult → Bool
  | .started _ => true
  | _ => false

/-- Embedding of `startGame` of `GameLobby.tsx` (lines 275-306).  A non-host
caller is rejected first ("Only the host can start the game"), then a lobby
with fewer than 2 players ("Need at least 2 players to start"); both paths
return before any database write.  Otherwise the room is updated with the
first drawer (`players.find(p => p.is_host) || players[0]`), the drawn word,
and `round_number: 1`. -/
def startGame (currentRoom : GameRoom) (currentPlayer : Player)
    (players : List Player) (randomWord : String) : StartGameResult :=
  if ¬ currentPlayer.is_host then .notHost
  else if players.length < 2 then .notEnoughPlayers
  else
    let firstPlayer : Option Player :=
      match players.find? (fun p => p.is_host) with
      | some p => some p
      | none => players.head?
    .started
      { currentRoom with
        current_player_id := firstPlayer.map Player.id
        current_word := some randomWord
        round_number := 1 }

/-- A `postgres_changes` payload for the `game_rooms` channel of
`setupRealtimeSubscriptions` (`GameBoard.tsx` lines 1085-1095). -/
structure RealtimePayload where
  eventType : String
  new : GameRoom
deriving DecidableEq

/-- Wire delivery of a room update to one subscribed player's connection.
The channel filter is `id=eq.roomId` only, so every subscriber of the room —
drawer or not — receives the same payload: the full updated row. -/
def deliverRoomUpdate (updatedRow : GameRoom) (subscriberPlayerId : String) :
    RealtimePayload :=
  ⟨"UPDATE", updatedRow⟩

/-- The word display rendered to a non-drawing player (`GameBoard.tsx` lines
1338-1345): `'_ '.repeat(room.current_word.length)` when a word is set, a
placeholder otherwise. -/
def guesserWordDisplay (room : GameRoom) : String :=
  match room.current_word with
  | some w => jsRepeat "_ " w.length
  | none => "Getting ready..."

/-- Local state of `DrawingCanvas` (`ChatPanel.tsx` file part, lines
376-506): the `isDrawingLocal` flag, the pending `strokes` batch, and the
batches inserted into `draw_strokes` so far, in insertion order. -/
structure CanvasState where
  isDrawingLocal : Bool
  strokes : List Point
  inserted : List (List Point)
deriving DecidableEq

/-- A mouse event on the canvas, carrying the sampled position and the
current color/brush settings. -/
inductive CanvasEvent where
  | mouseDown (x y : Int) (color : String) (size : Nat)
  | mouseMove (x y : Int) (color : String) (size : Nat)
  | mouseUp
deriving DecidableEq

/-- Embedding of `handleMouseDown` / `handleMouseMove` / `handleMouseUp` of
`DrawingCanvas` (`ChatPanel.tsx` file part, lines 438-506).  Mouse-down
starts a batch with an `isNewStroke = true` point; mouse-move appends
`isNewStroke = false` points while drawing; mouse-up inserts the non-empty
pending batch into `draw_strokes` and resets. -/
def canvasStep (isDrawer : Bool) (st : CanvasState) : CanvasEvent → CanvasState
  | .mouseDown x y color size =>
    if ¬ isDrawer then st
    else { st with isDrawingLocal := true, strokes := [⟨x, y, color, size, true⟩] }
  | .mouseMove x y color size =>
    if ¬ isDrawer ∨ ¬ st.isDrawingLocal then st
    else { st with strokes := st.strokes ++ [⟨x, y, color, size, false⟩] }
  | .mouseUp =>
    if ¬ isDrawer ∨ ¬ st.isDrawingLocal ∨ st.strokes = [] then st
    else { isDrawingLocal := false, strokes := [], inserted := st.inserted ++ [st.strokes] }

/-- The canvas state after a sequence of mouse events, from the initial
state (not drawing, empty pending batch, nothing inserted). -/
def runCanvas (isDrawer : Bool) (events : List CanvasEvent) : CanvasState :=
  events.foldl (canvasStep isDrawer) ⟨false, [], []⟩

/-- Whether the renderer `drawStroke` (`ChatPanel.tsx` file part, lines
422-436) begins a new path at index `i` of a batch:
`point.isNewStroke || index === 0`. -/
def drawBeginsNewPath (points : List Point) (i : Nat) : Bool :=
  match points.get? i with
  | some p => p.isNewStroke || i == 0
  | none => false

/-- The room's host player, joined first, score 0 (concrete instance for
witnesses and counterexamples). -/
def alicePlayer : Player := ⟨"pA", "Alice", 0, true, true⟩

/-- A guest player, joined second, score 10. -/
def bobPlayer : Player := ⟨"pB", "Bob", 10, false, true⟩

/-- A guest player, joined third, score 20. -/
def caraPlayer : Player := ⟨"pC", "Cara", 20, false, true⟩

/-- A room with an active round: round 1 of 5, Bob drawing the word Cat. -/
def activeRoom : GameRoom := ⟨"r1", "Room", "pA", some "pB", some "Cat", 1, 5, 60, true⟩

/-- The same room with a different three-letter word. -/
def dogRoom : GameRoom := ⟨"r1", "Room", "pA", some "pB", some "Dog", 1, 5, 60, true⟩

/-- A room whose game has ended (`is_active = false`); the last word is still
stored, as `handleRoundEnd`'s end-game branch leaves it in place. -/
def endedRoom : GameRoom := ⟨"r1", "Room", "pA", some "pA", some "Cat", 5, 5, 60, false⟩

/-- A room at round 1 of 2 with Alice drawing. -/
def midGameRoom : GameRoom := ⟨"r1", "Room", "pA", some "pA", some "Cat", 1, 2, 60, true⟩

example : getRandomWord ⟨1, by decide⟩ = "Dog" := by decide
example : jsTrim "  cat " = "cat" := by decide
example : jsLower "CaT" = "cat" := by decide
example : jsFindIndex (fun n => n == 3) [5, 3, 3] = 1 := by decide
example : jsRepeat "_ " 3 = "_ _ _ " := by decide

theorem scoreOf_awardTen (players : List Player) (playerId : String) :
    scoreOf (awardTen players playerId) playerId =
      (scoreOf players playerId).map (· + 10) := by
  induction players with
  | nil => rfl
  | cons p ps ih =>
    by_cases hp : p.id == playerId
    · simp [awardTen, scoreOf, List.find?, hp]
    · simp only [awardTen, scoreOf, List.map_cons, List.find?] at ih ⊢
      simp only [hp, if_neg, Bool.false_eq_true, ite_false]
      simpa [awardTen, scoreOf] using ih

/-- `handleRoundEnd` keeps `max_rounds` and, per branch, changes exactly the
fields written by the corresponding database update. -/
theorem handleRoundEnd_next_branch (r : GameRoom) (players : List Player) (w : String)
    (h : r.round_number + 1 ≤ r.max_rounds) :
    (handleRoundEnd r players w).room =
      { r with
        round_number := r.round_number + 1
        current_player_id := (nextDrawer r players).map Player.id
        current_word := some w } := by
  simp [handleRoundEnd, h]

theorem handleRoundEnd_end_branch (r : GameRoom) (players : List Player) (w : String)
    (h : ¬ r.round_number + 1 ≤ r.max_rounds) :
    (handleRoundEnd r players w).room = { r with is_active := false } := by
  simp [handleRoundEnd, h]

theorem round_le_of_reachable {r0 r : GameRoom}
    (h0 : r0.round_number ≤ r0.max_rounds) (hr : RoomReachable r0 r) :
    r.round_number ≤ r.max_rounds := by
  induction hr with
  | refl => exact h0
  | step r2 players newWord _ ih =>
    by_cases h : r2.round_number + 1 ≤ r2.max_rounds
    · rw [handleRoundEnd_next_branch r2 players newWord h]
      exact h
    · rw [handleRoundEnd_end_branch r2 players newWord h]
      exact ih

/-- C2: a round-end transition increments `roundNumber` by exactly 1 while
the incremented value stays at most `maxRounds`, and otherwise only clears
`isActive` (game ended) without incrementing; along any chain of round-end
transitions from a room satisfying `roundNumber <= maxRounds` (as created),
`roundNumber` never exceeds `maxRounds`. -/
theorem handleRoundEnd_round_progress
    (r0 r : GameRoom) (players : List Player) (newWord : String)
    (h0 : r0.round_number ≤ r0.max_rounds) (hr : RoomReachable r0 r) :
    r.round_number ≤ r.max_rounds ∧
    (r.round_number + 1 ≤ r.max_rounds →
      (handleRoundEnd r players newWord).room.round_number = r.round_number + 1 ∧
      (handleRoundEnd r players newWord).room.is_active = r.is_active) ∧
    (r.max_rounds < r.round_number + 1 →
      (handleRoundEnd r players newWord).room.round_number = r.round_number ∧
      (handleRoundEnd r players newWord).room.is_active = false) := by
  refine ⟨round_le_of_reachable h0 hr, ?_, ?_⟩
  · intro h
    rw [handleRoundEnd_next_branch r players newWord h]
    exact ⟨rfl, rfl⟩
  · intro h
    rw [handleRoundEnd_end_branch r players newWord (by omega)]
    exact ⟨rfl, rfl⟩

theorem handleRoundEnd_round_progress_witness :
    (createdRoom "r1" "Room" "h1").round_number ≤ (createdRoom "r1" "Room" "h1").max_rounds ∧
    (handleRoundEnd (createdRoom "r1" "Room" "h1") [alicePlayer, bobPlayer] "Dog").room.round_number =
      (createdRoom "r1" "Room" "h1").round_number + 1 :=
  have h := handleRoundEnd_round_progress (createdRoom "r1" "Room" "h1")
    (createdRoom "r1" "Room" "h1") [alicePlayer, bobPlayer] "Dog" (by decide)
    (RoomReachable.refl _)
  ⟨h.1, (h.2.1 (by decide)).1⟩

theorem game_words_trim_fixed :
    GAME_WORDS.all (fun w => jsTrim (jsLower w) == jsLower w) = true := by decide

/-- C5: for every guess and every word the program can have assigned as
`currentWord` (a member of the fixed word list), both implementations of the
`isCorrect` flag agree with the spec's normalized comparison (lower-case,
surrounding whitespace trimmed, on both sides). -/
theorem isCorrect_matches_normalized_eq (guess word : String) (hw : word ∈ GAME_WORDS) :
    gameBoardIsCorrect guess (some word) = specNormalizedEq guess word ∧
    chatIsCorrect guess (some word) = specNormalizedEq guess word := by
  have hfix : jsTrim (jsLower word) = jsLower word := by
    have := List.all_eq_true.mp game_words_trim_fixed word hw
    exact eq_of_beq this
  constructor
  · show (jsTrim (jsLower guess) == jsLower word) = specNormalizedEq guess word
    rw [specNormalizedEq, hfix]
  · rfl

theorem isCorrect_matches_normalized_eq_witness :
    gameBoardIsCorrect " CAT " (some "Cat") = specNormalizedEq " CAT " "Cat" ∧
    chatIsCorrect " CAT " (some "Cat") = specNormalizedEq " CAT " "Cat" :=
  isCorrect_matches_normalized_eq " CAT " "Cat" (by decide)

/-- C7: `startGame` succeeds exactly for a host caller with at least two
players in the room; a non-host caller is rejected with the not-host error
and a host with fewer than two players with the not-enough-players error,
both before any database write (the room row stays as it was). -/
theorem startGame_requires_host_and_two_players
    (room : GameRoom) (caller : Player) (players : List Player) (word : String) :
    (caller.is_host = false → startGame room caller players word = .notHost) ∧
    (caller.is_host = true → players.length < 2 →
      startGame room caller players word = .notEnoughPlayers) ∧
    (caller.is_host = true → 2 ≤ players.length →
      (startGame room caller players word).isStarted = true) := by
  refine ⟨fun h => ?_, fun h h2 => ?_, fun h h2 => ?_⟩
  · simp [startGame, h]
  · simp [startGame, h, h2]
  · simp [startGame, h, Nat.not_lt.mpr h2, StartGameResult.isStarted]

theorem startGame_requires_host_and_two_players_witness :
    startGame activeRoom bobPlayer [alicePlayer, bobPlayer] "Cat" = .notHost ∧
    startGame activeRoom alicePlayer [alicePlayer] "Cat" = .notEnoughPlayers ∧
    (startGame activeRoom alicePlayer [alicePlayer, bobPlayer] "Cat").isStarted = true :=
  ⟨(startGame_requires_host_and_two_players activeRoom bobPlayer
      [alicePlayer, bobPlayer] "Cat").1 (by decide),
   (startGame_requires_host_and_two_players activeRoom alicePlayer
      [alicePlayer] "Cat").2.1 (by decide) (by decide),
   (startGame_requires_host_and_two_players activeRoom alicePlayer
      [alicePlayer, bobPlayer] "Cat").2.2 (by decide) (by decide)⟩

/-- C4 counterexample: the room-update payload delivered to player `pC`, who
is not the drawer (`activeRoom` has Bob drawing), carries the secret word
`Cat` while the round is active — the wire payload does reveal `currentWord`
to non-drawing players. -/
theorem roomUpdate_payload_contains_word_cex :
    (deliverRoomUpdate activeRoom "pC").new.current_word = some "Cat" ∧
    activeRoom.current_player_id ≠ some "pC" ∧
    activeRoom.is_active = true := by decide

/-- C4 amended: the realtime channel is filtered by room id only, so every
subscriber — drawer or not — receives the full updated room row, including
`currentWord`; the word is withheld from non-drawers only at render time,
where the guesser display depends on nothing but the word's length. -/
theorem roomUpdate_payload_full_row (r r' : GameRoom) (subscriberId : String)
    (w w' : String) (hw : r.current_word = some w) (hw' : r'.current_word = some w')
    (hlen : w'.length = w.length) :
    (deliverRoomUpdate r subscriberId).new = r ∧
    guesserWordDisplay r' = guesserWordDisplay r := by
  refine ⟨rfl, ?_⟩
  simp only [guesserWordDisplay, hw, hw']
  rw [hlen]

theorem roomUpdate_payload_full_row_witness :
    (deliverRoomUpdate activeRoom "pC").new = activeRoom ∧
    guesserWordDisplay dogRoom = guesserWordDisplay activeRoom :=
  roomUpdate_payload_full_row activeRoom dogRoom "pC" "Cat" "Dog" rfl rfl (by decide)

/-- C8 counterexample: with more than one word in the fixed list and
`activeRoom`'s previous word being `Cat`, the round-end transition with draw
outcome 0 assigns `Cat` again — the immediately previous word is not excluded
from selection. -/
theorem getRandomWord_no_previous_exclusion_cex :
    1 < GAME_WORDS.length ∧
    activeRoom.current_word = some "Cat" ∧
    (handleRoundEnd activeRoom [alicePlayer, bobPlayer]
      (getRandomWord ⟨0, by decide⟩)).room.current_word = some "Cat" := by
  refine ⟨by decide, by decide, by decide⟩

/-- C8 amended: on a round-end that starts a next round, the new word is
exactly the uniform draw `getRandomWord` from the full fixed list — the draw
takes no previous-word input, so the room's previous word is never excluded. -/
theorem roundEnd_word_ignores_previous (r : GameRoom) (players : List Player)
    (j : Fin GAME_WORDS.length) (h : r.round_number + 1 ≤ r.max_rounds) :
    (handleRoundEnd r players (getRandomWord j)).room.current_word =
      some (getRandomWord j) ∧
    getRandomWord j ∈ GAME_WORDS := by
  constructor
  · rw [handleRoundEnd_next_branch r players _ h]
  · exact GAME_WORDS.get_mem j.1 j.2

theorem roundEnd_word_ignores_previous_witness :
    (handleRoundEnd activeRoom [alicePlayer, bobPlayer]
      (getRandomWord ⟨0, by decide⟩)).room.current_word =
      some (getRandomWord ⟨0, by decide⟩) ∧
    getRandomWord ⟨0, by decide⟩ ∈ GAME_WORDS :=
  roundEnd_word_ignores_previous activeRoom [alicePlayer, bobPlayer]
    ⟨0, by decide⟩ (by decide)

/-- C9 counterexample: at round 1 of 2 the round-end transition issues the
room update (the next active-round state, visible to subscribers) first and
deletes the strokes second — the strokes are not cleared before the next
round state is emitted. -/
theorem handleRoundEnd_update_before_delete_cex :
    (handleRoundEnd midGameRoom [alicePlayer, bobPlayer] "Dog").ops =
      [DbOp.updateRoom ⟨"r1", "Room", "pA", some "pB", some "Dog", 2, 2, 60, true⟩,
       DbOp.deleteStrokes] ∧
    (handleRoundEnd midGameRoom [alicePlayer, bobPlayer] "Dog").ops.head? ≠
      some DbOp.deleteStrokes := by decide

/-- C9 amended: on a round-end that starts a next round, the database writes
are, in order, the room update (emitting the next active-round state) and
then the deletion of all the room's strokes; on a round-end that ends the
game, the only write is the inactive-room update and no stroke mutation
occurs. -/
theorem handleRoundEnd_ops_trace (r : GameRoom) (players : List Player) (w : String) :
    (r.round_number + 1 ≤ r.max_rounds →
      (handleRoundEnd r players w).ops =
        [DbOp.updateRoom (handleRoundEnd r players w).room, DbOp.deleteStrokes]) ∧
    (r.max_rounds < r.round_number + 1 →
      (handleRoundEnd r players w).ops =
        [DbOp.updateRoom (handleRoundEnd r players w).room] ∧
      DbOp.deleteStrokes ∉ (handleRoundEnd r players w).ops) := by
  constructor
  · intro h
    simp [handleRoundEnd, h]
  · intro h
    have h' : ¬ r.round_number + 1 ≤ r.max_rounds := by omega
    refine ⟨by simp [handleRoundEnd, h'], by simp [handleRoundEnd, h']⟩

theorem handleRoundEnd_ops_trace_witness :
    (handleRoundEnd midGameRoom [alicePlayer, bobPlayer] "Dog").ops =
      [DbOp.updateRoom (handleRoundEnd midGameRoom [alicePlayer, bobPlayer] "Dog").room,
       DbOp.deleteStrokes] ∧
    (handleRoundEnd endedRoom [alicePlayer, bobPlayer] "Dog").ops =
      [DbOp.updateRoom (handleRoundEnd endedRoom [alicePlayer, bobPlayer] "Dog").room] ∧
    DbOp.deleteStrokes ∉ (handleRoundEnd endedRoom [alicePlayer, bobPlayer] "Dog").ops :=
  ⟨(handleRoundEnd_ops_trace midGameRoom [alicePlayer, bobPlayer] "Dog").1 (by decide),
   ((handleRoundEnd_ops_trace endedRoom [alicePlayer, bobPlayer] "Dog").2 (by decide)).1,
   ((handleRoundEnd_ops_trace endedRoom [alicePlayer, bobPlayer] "Dog").2 (by decide)).2⟩

/-- C1 counterexample: Alice (score 0) submits the correct guess `cat` for
the word `Cat` twice in the same round; her score rises to 20, not the
claimed total of exactly 10 — the code re-awards the bonus on every correct
submission. -/
theorem submitGuess_double_award_cex :
    scoreOf (submitGuess "r1" "p1" (some "Cat") false "cat"
      (submitGuess "r1" "p1" (some "Cat") false "cat"
        ⟨[⟨"p1", "Alice", 0, false, true⟩], []⟩)).players "p1" = some 20 ∧
    (20 : Nat) ≠ 0 + 10 := by decide

/-- C1 amended: each correct submission (non-empty text, submitter not the
drawer, normalized text equal to the current word) appends one guess record
and adds exactly 10 to the submitter's score — so `k` correct submissions by
the same player in the same round add `10 * k`; there is no once-per-round
guard. -/
theorem submitGuess_awards_per_submission
    (roomId playerId word guess : String) (st : ChatState) (s : Nat)
    (hne : ¬ jsTrim guess = "")
    (hcorrect : chatIsCorrect guess (some word) = true)
    (hs : scoreOf st.players playerId = some s) :
    scoreOf (submitGuess roomId playerId (some word) false guess st).players playerId =
      some (s + 10) ∧
    (submitGuess roomId playerId (some word) false guess st).guesses.length =
      st.guesses.length + 1 ∧
    scoreOf (submitGuess roomId playerId (some word) false guess
      (submitGuess roomId playerId (some word) false guess st)).players playerId =
      some (s + 20) := by
  have hstep : ∀ st' : ChatState, ∀ s' : Nat, scoreOf st'.players playerId = some s' →
      scoreOf (submitGuess roomId playerId (some word) false guess st').players playerId =
        some (s' + 10) ∧
      (submitGuess roomId playerId (some word) false guess st').guesses.length =
        st'.guesses.length + 1 := by
    intro st' s' hs'
    have heq : submitGuess roomId playerId (some word) false guess st' =
        { players := awardTen st'.players playerId,
          guesses := st'.guesses ++ [⟨roomId, playerId, jsTrim guess, true⟩] } := by
      simp [submitGuess, hne, hcorrect]
    constructor
    · rw [heq]
      show scoreOf (awardTen st'.players playerId) playerId = some (s' + 10)
      rw [scoreOf_awardTen, hs']
      rfl
    · rw [heq]
      simp
  obtain ⟨h1, h2⟩ := hstep st s hs
  obtain ⟨h1', _⟩ := hstep _ (s + 10) h1
  exact ⟨h1, h2, by rw [h1']⟩

theorem submitGuess_awards_per_submission_witness :
    scoreOf (submitGuess "r1" "pB" (some "Cat") false " cat "
      ⟨[bobPlayer], []⟩).players "pB" = some (10 + 10) ∧
    (submitGuess "r1" "pB" (some "Cat") false " cat "
      (⟨[bobPlayer], []⟩ : ChatState)).guesses.length =
      (⟨[bobPlayer], []⟩ : ChatState).guesses.length + 1 ∧
    scoreOf (submitGuess "r1" "pB" (some "Cat") false " cat "
      (submitGuess "r1" "pB" (some "Cat") false " cat "
        ⟨[bobPlayer], []⟩)).players "pB" = some (10 + 20) :=
  submitGuess_awards_per_submission "r1" "pB" "Cat" " cat " ⟨[bobPlayer], []⟩ 10
    (by decide) (by decide) (by decide)

/-- C6 counterexample: `endedRoom` is not in an active round
(`is_active = false`), yet a non-drawer's non-empty correct guess is still
recorded and still awards 10 points — the submission path never consults the
room's state, so the claimed rejection does not happen. -/
theorem submitGuess_inactive_room_mutates_cex :
    endedRoom.is_active = false ∧
    (submitGuessFull endedRoom "pB" "cat" ⟨[bobPlayer], []⟩).guesses =
      [⟨"r1", "pB", "cat", true⟩] ∧
    scoreOf (submitGuessFull endedRoom "pB" "cat"
      ⟨[bobPlayer], []⟩).players "pB" = some 20 := by decide

/-- C6 amended: a guess submission is rejected with no state mutation when
the submitter is the current drawer or the text is empty after trimming; the
room-state condition of the claim is not checked — a guess submitted while
the room is not in an active round is still recorded (see the
counterexample). -/
theorem submitGuess_rejects_drawer_or_empty (room : GameRoom)
    (playerId guess : String) (st : ChatState)
    (h : room.current_player_id = some playerId ∨ jsTrim guess = "") :
    submitGuessFull room playerId guess st = st := by
  rcases h with h | h
  · have hdraw : (room.current_player_id == some playerId) = true := by
      rw [h]; exact beq_self_eq_true _
    simp [submitGuessFull, submitGuess, hdraw]
  · simp [submitGuessFull, submitGuess, h]

theorem submitGuess_rejects_drawer_or_empty_witness :
    submitGuessFull endedRoom "pA" "cat" ⟨[alicePlayer], []⟩ =
      (⟨[alicePlayer], []⟩ : ChatState) :=
  submitGuess_rejects_drawer_or_empty endedRoom "pA" "cat" ⟨[alicePlayer], []⟩
    (Or.inl (by decide))

theorem jsFindIndex_append {α : Type} (p : α → Bool) (pre : List α) (a : α)
    (post : List α) (ha : p a = true) (hpre : ∀ x ∈ pre, p x = false) :
    jsFindIndex p (pre ++ a :: post) = (pre.length : Int) := by
  induction pre with
  | nil => simp [jsFindIndex, ha]
  | cons x xs ih =>
    have hx : p x = false := hpre x (List.mem_cons_self x xs)
    have ihv := ih fun y hy => hpre y (List.mem_cons_of_mem x hy)
    have hne : ¬ (xs.length : Int) = -1 := by omega
    simp only [List.cons_append, jsFindIndex, hx, Bool.false_eq_true, if_false, ite_false,
      List.append_eq, ihv, hne, List.length_cons]
    push_cast
    ring

theorem get?_zero_eq_head? {α : Type} (l : List α) : l.get? 0 = l.head? := by
  cases l <;> rfl

theorem nextDrawer_eq (room : GameRoom) (pre post : List Player) (cur : Player)
    (hcur : (some cur.id == room.current_player_id) = true)
    (hpre : ∀ q ∈ pre, (some q.id == room.current_player_id) = false) :
    nextDrawer room (pre ++ cur :: post) = (post ++ pre ++ [cur]).head? := by
  have hidx := jsFindIndex_append (fun p => some p.id == room.current_player_id)
    pre cur post hcur hpre
  have hlen : (pre ++ cur :: post).length = pre.length + post.length + 1 := by
    simp [List.length_append]
    omega
  have hnz : ¬ (pre ++ cur :: post).length = 0 := by omega
  unfold nextDrawer
  rw [hidx, if_neg hnz]
  have hcast : (((pre.length : Int) + 1) % (((pre ++ cur :: post).length : Nat) : Int)).toNat
      = (pre.length + 1) % (pre ++ cur :: post).length := by
    have h1 : ((pre.length : Int) + 1) = ((pre.length + 1 : Nat) : Int) := by push_cast; ring
    rw [h1, ← Int.natCast_mod, Int.toNat_natCast]
  rw [hcast]
  cases post with
  | nil =>
    have hmod : (pre.length + 1) % (pre ++ cur :: []).length = 0 := by
      simp [hlen]
    rw [hmod, get?_zero_eq_head?]
    simp
  | cons q qs =>
    have hlt : pre.length + 1 < (pre ++ cur :: q :: qs).length := by
      simp [List.length_append]
    have hmod : (pre.length + 1) % (pre ++ cur :: q :: qs).length = pre.length + 1 :=
      Nat.mod_eq_of_lt hlt
    rw [hmod, List.get?_append_right (by omega)]
    have hsub : pre.length + 1 - pre.length = 1 := by omega
    rw [hsub]
    simp

/-- C3 counterexample: players joined in the order Alice, Bob, Cara (scores
0, 10, 20) with Bob currently drawing.  `fetchGameData` orders the list by
score descending, so the code picks Alice as the next drawer, while the
player immediately after Bob in stable join order is Cara. -/
theorem nextDrawer_ignores_join_order_cex :
    fetchPlayers [alicePlayer, bobPlayer, caraPlayer] =
      [caraPlayer, bobPlayer, alicePlayer] ∧
    nextDrawer activeRoom (fetchPlayers [alicePlayer, bobPlayer, caraPlayer]) =
      some alicePlayer ∧
    joinOrderSuccessor [alicePlayer, bobPlayer, caraPlayer]
      activeRoom.current_player_id = some caraPlayer ∧
    alicePlayer ≠ caraPlayer := by decide

/-- C3 amended: the next drawer is the player immediately after the current
drawer — wrapping around — in the player list the component fetched, which
is ordered by score descending (not by stable join order). -/
theorem nextDrawer_rotates_fetched_order (room : GameRoom) (pre post : List Player)
    (cur : Player) (rows : List Player)
    (hcur : (some cur.id == room.current_player_id) = true)
    (hpre : ∀ q ∈ pre, (some q.id == room.current_player_id) = false) :
    nextDrawer room (pre ++ cur :: post) = (post ++ pre ++ [cur]).head? ∧
    List.Sorted (fun p q => q.score ≤ p.score) (fetchPlayers rows) :=
  ⟨nextDrawer_eq room pre post cur hcur hpre,
   List.sorted_insertionSort (fun p q => q.score ≤ p.score) rows⟩

theorem nextDrawer_rotates_fetched_order_witness :
    nextDrawer activeRoom ([caraPlayer] ++ bobPlayer :: [alicePlayer]) =
      ([alicePlayer] ++ [caraPlayer] ++ [bobPlayer]).head? ∧
    List.Sorted (fun p q => q.score ≤ p.score)
      (fetchPlayers [alicePlayer, bobPlayer, caraPlayer]) :=
  nextDrawer_rotates_fetched_order activeRoom [caraPlayer] [alicePlayer] bobPlayer
    [alicePlayer, bobPlayer, caraPlayer] (by decide) (by decide)

/-- Invariant of the drawing-canvas state: every inserted batch and any
non-empty pending batch begin with an `isNewStroke = true` point, and while
`isDrawingLocal` is set the pending batch is non-empty. -/
def canvasInv (st : CanvasState) : Prop :=
  (∀ b ∈ st.inserted, b.head?.map Point.isNewStroke = some true) ∧
  (st.strokes ≠ [] → st.strokes.head?.map Point.isNewStroke = some true) ∧
  (st.isDrawingLocal = true → st.strokes ≠ [])

theorem canvasStep_inv (isDrawer : Bool) (st : CanvasState) (e : CanvasEvent)
    (h : canvasInv st) : canvasInv (canvasStep isDrawer st e) := by
  obtain ⟨hins, hpend, hdraw⟩ := h
  cases e with
  | mouseDown x y color size =>
    by_cases hd : isDrawer = true
    · have hstep : canvasStep isDrawer st (.mouseDown x y color size) =
          { st with isDrawingLocal := true, strokes := [⟨x, y, color, size, true⟩] } := by
        simp [canvasStep, hd]
      rw [hstep]
      exact ⟨hins, fun _ => rfl, fun _ => by simp⟩
    · have hstep : canvasStep isDrawer st (.mouseDown x y color size) = st := by
        simp [canvasStep, hd]
      rw [hstep]
      exact ⟨hins, hpend, hdraw⟩
  | mouseMove x y color size =>
    by_cases hg : isDrawer = true ∧ st.isDrawingLocal = true
    · have hne := hdraw hg.2
      have hstep : canvasStep isDrawer st (.mouseMove x y color size) =
          { st with strokes := st.strokes ++ [⟨x, y, color, size, false⟩] } := by
        simp [canvasStep, hg.1, hg.2]
      rw [hstep]
      refine ⟨hins, fun _ => ?_, fun _ => by simp⟩
      cases hst : st.strokes with
      | nil => exact absurd hst hne
      | cons p rest =>
        have hh := hpend hne
        rw [hst] at hh
        simpa using hh
    · have hstep : canvasStep isDrawer st (.mouseMove x y color size) = st := by
        rcases not_and_or.mp hg with hd | hl
        · simp [canvasStep, hd]
        · simp [canvasStep, hl]
      rw [hstep]
      exact ⟨hins, hpend, hdraw⟩
  | mouseUp =>
    by_cases hg : isDrawer = true ∧ st.isDrawingLocal = true ∧ st.strokes ≠ []
    · have hstep : canvasStep isDrawer st .mouseUp =
          ⟨false, [], st.inserted ++ [st.strokes]⟩ := by
        simp [canvasStep, hg.1, hg.2.1, hg.2.2]
      rw [hstep]
      refine ⟨?_, fun hf => absurd rfl hf, fun hf => by simp at hf⟩
      intro b hb
      rcases List.mem_append.mp hb with hb | hb
      · exact hins b hb
      · rw [List.mem_singleton.mp hb]
        exact hpend hg.2.2
    · have hstep : canvasStep isDrawer st .mouseUp = st := by
        rcases not_and_or.mp hg with hd | hg2
        · simp [canvasStep, hd]
        · rcases not_and_or.mp hg2 with hl | hs
          · simp [canvasStep, hl]
          · have hempty : st.strokes = [] := not_not.mp hs
            simp [canvasStep, hempty]
      rw [hstep]
      exact ⟨hins, hpend, hdraw⟩

theorem canvasInv_run (isDrawer : Bool) (events : List CanvasEvent) :
    canvasInv (runCanvas isDrawer events) := by
  have gen : ∀ evs : List CanvasEvent, ∀ st : CanvasState, canvasInv st →
      canvasInv (evs.foldl (canvasStep isDrawer) st) := by
    intro evs
    induction evs with
    | nil => exact fun st h => h
    | cons e es ih => exact fun st h => ih _ (canvasStep_inv isDrawer st e h)
  exact gen events ⟨false, [], []⟩ ⟨by simp, fun h => absurd rfl h, by simp⟩

/-- C10: every stroke batch the drawing canvas inserts into the stroke log is
non-empty and begins with an `isNewStroke = true` point, and on such a batch
the renderer's new-path test (`point.isNewStroke || index === 0`) coincides
with the `isNewStroke` flag at every index — the log alone determines the
path structure. -/
theorem inserted_batches_start_new_stroke (isDrawer : Bool)
    (events : List CanvasEvent) (b : List Point) (i : Nat)
    (hb : b ∈ (runCanvas isDrawer events).inserted) (hi : i < b.length) :
    b ≠ [] ∧ b.head?.map Point.isNewStroke = some true ∧
    drawBeginsNewPath b i = (b.get ⟨i, hi⟩).isNewStroke := by
  have hhead := (canvasInv_run isDrawer events).1 b hb
  have hne : b ≠ [] := by
    intro hnil
    rw [hnil] at hhead
    simp at hhead
  refine ⟨hne, hhead, ?_⟩
  cases b with
  | nil => exact absurd rfl hne
  | cons p rest =>
    have hp : p.isNewStroke = true := by simpa using hhead
    cases i with
    | zero =>
      simp [drawBeginsNewPath, hp]
    | succ n =>
      have hn : n < rest.length := by
        simpa [Nat.succ_lt_succ_iff] using hi
      simp [drawBeginsNewPath, List.getElem?_eq_getElem hn]

theorem inserted_batches_start_new_stroke_witness :
    ([⟨1, 2, "#000000", 3, true⟩, ⟨4, 5, "#000000", 3, false⟩] : List Point) ≠ [] ∧
    ([⟨1, 2, "#000000", 3, true⟩, ⟨4, 5, "#000000", 3, false⟩] :
      List Point).head?.map Point.isNewStroke = some true ∧
    drawBeginsNewPath [⟨1, 2, "#000000", 3, true⟩, ⟨4, 5, "#000000", 3, false⟩] 1 =
      (([⟨1, 2, "#000000", 3, true⟩, ⟨4, 5, "#000000", 3, false⟩] :
        List Point).get ⟨1, by decide⟩).isNewStroke :=
  inserted_batches_start_new_stroke true
    [CanvasEvent.mouseDown 1 2 "#000000" 3, CanvasEvent.mouseMove 4 5 "#000000" 3,
     CanvasEvent.mouseUp]
    [⟨1, 2, "#000000", 3, true⟩, ⟨4, 5, "#000000", 3, false⟩] 1
    (by decide) (by decide)
